import Mathlib

/-!
Verification of the path-filtering, tree-rendering, search and
connection-profile logic of the devtul command-line utility
(src/devtul/core/file_utils.py, filters.py, models.py, interactive.py,
database.py), shallowly embedded in Lean.

Paths are plain forward-slash-separated strings.  Python loops whose
iteration count is bounded by the input size are embedded with an explicit
fuel argument that the wrapper instantiates with a provably sufficient
bound, so every definition is executable by kernel reduction.
-/

/-! ## String primitives (models of the Python `str` operations used) -/

/-- Lexicographic comparison of character lists by code point, the order
`sorted` uses on Python strings. -/
def clLe : List Char → List Char → Bool
  | [], _ => true
  | _ :: _, [] => false
  | a :: as, b :: bs =>
    if a.toNat < b.toNat then true
    else if b.toNat < a.toNat then false
    else clLe as bs

/-- `a ≤ b` on strings by code point, as Python `sorted` compares them. -/
def strLe (a b : String) : Prop := clLe a.data b.data = true

instance (a b : String) : Decidable (strLe a b) := by
  unfold strLe; exact inferInstance

theorem clLe_total (a b : List Char) : clLe a b = true ∨ clLe b a = true := by
  induction a generalizing b with
  | nil => left; rfl
  | cons x xs ih =>
    cases b with
    | nil => right; rfl
    | cons y ys =>
      by_cases hxy : x.toNat < y.toNat
      · left; simp [clLe, hxy]
      · by_cases hyx : y.toNat < x.toNat
        · right; simp [clLe, hyx]
        · rcases ih ys with h | h
          · left; simp [clLe, hxy, hyx, h]
          · right; simp [clLe, hxy, hyx, h]

theorem clLe_trans {a b c : List Char} (hab : clLe a b = true)
    (hbc : clLe b c = true) : clLe a c = true := by
  induction a generalizing b c with
  | nil => rfl
  | cons x xs ih =>
    cases b with
    | nil => simp [clLe] at hab
    | cons y ys =>
      cases c with
      | nil => simp [clLe] at hbc
      | cons z zs =>
        simp only [clLe] at hab hbc ⊢
        by_cases hxy : x.toNat < y.toNat
        · by_cases hyz : y.toNat < z.toNat
          · have : x.toNat < z.toNat := Nat.lt_trans hxy hyz
            simp [this]
          · by_cases hzy : z.toNat < y.toNat
            · simp [hyz, hzy] at hbc
            · have hyz' : y.toNat = z.toNat := Nat.le_antisymm
                (Nat.le_of_not_lt hzy) (Nat.le_of_not_lt hyz)
              have : x.toNat < z.toNat := hyz' ▸ hxy
              simp [this]
        · by_cases hyx : y.toNat < x.toNat
          · simp [hxy, hyx] at hab
          · have hxy' : x.toNat = y.toNat := Nat.le_antisymm
              (Nat.le_of_not_lt hyx) (Nat.le_of_not_lt hxy)
            by_cases hyz : y.toNat < z.toNat
            · have : x.toNat < z.toNat := hxy' ▸ hyz
              simp [this]
            · by_cases hzy : z.toNat < y.toNat
              · simp [hyz, hzy] at hbc
              · have hxz : ¬ x.toNat < z.toNat := by omega
                have hzx : ¬ z.toNat < x.toNat := by omega
                simp only [hxy, hyx, if_false, ite_self] at hab
                simp only [hyz, hzy, if_false, ite_self] at hbc
                simp [hxz, hzx, ih hab hbc]

theorem clLe_antisymm {a b : List Char} (hab : clLe a b = true)
    (hba : clLe b a = true) : a = b := by
  induction a generalizing b with
  | nil =>
    cases b with
    | nil => rfl
    | cons y ys => simp [clLe] at hba
  | cons x xs ih =>
    cases b with
    | nil => simp [clLe] at hab
    | cons y ys =>
      simp only [clLe] at hab hba
      by_cases hxy : x.toNat < y.toNat
      · have : ¬ y.toNat < x.toNat := by omega
        simp [hxy, this] at hba
      · by_cases hyx : y.toNat < x.toNat
        · simp [hxy, hyx] at hab
        · have hxy' : x.toNat = y.toNat := by omega
          have hx : x = y := Char.ext (UInt32.ext hxy')
          simp only [hxy, hyx, if_false, ite_self] at hab hba
          rw [hx, ih hab hba]

instance : IsTotal String strLe :=
  ⟨fun a b => clLe_total a.data b.data⟩

instance : IsTrans String strLe :=
  ⟨fun _ _ _ hab hbc => clLe_trans hab hbc⟩

instance : IsAntisymm String strLe :=
  ⟨fun _ _ hab hba => String.ext (clLe_antisymm hab hba)⟩

/-- Sorting a list of strings by code point, the model of Python `sorted`
and `list.sort` on strings. -/
def sortStrings (l : List String) : List String := List.insertionSort strLe l

theorem sortStrings_perm (l : List String) : (sortStrings l).Perm l :=
  List.perm_insertionSort strLe l

theorem sortStrings_sorted (l : List String) : List.Sorted strLe (sortStrings l) :=
  List.sorted_insertionSort strLe l

theorem sortStrings_eq_of_perm {l₁ l₂ : List String} (h : l₁.Perm l₂) :
    sortStrings l₁ = sortStrings l₂ :=
  List.eq_of_perm_of_sorted
    (((sortStrings_perm l₁).trans h).trans (sortStrings_perm l₂).symm)
    (sortStrings_sorted l₁) (sortStrings_sorted l₂)

theorem mem_sortStrings {x : String} {l : List String} :
    x ∈ sortStrings l ↔ x ∈ l :=
  (sortStrings_perm l).mem_iff

/-- Is `p` a leading segment of `s` (character lists)?  Models Python
`str.startswith` on the underlying characters. -/
def isPrefixOfCL : List Char → List Char → Bool
  | [], _ => true
  | _ :: _, [] => false
  | a :: as, b :: bs => a == b && isPrefixOfCL as bs

/-- Python `needle in hay` on strings: `needle` occurs contiguously in
`hay`. -/
def containsSubCL : List Char → List Char → Bool
  | [], needle => isPrefixOfCL needle []
  | h :: t, needle => isPrefixOfCL needle (h :: t) || containsSubCL t needle

/-- Python `needle in hay` on strings. -/
def pyContains (hay needle : String) : Bool := containsSubCL hay.data needle.data

/-- Python `s.endswith(suffix)`. -/
def pyEndsWith (s suffix : String) : Bool :=
  isPrefixOfCL suffix.data.reverse s.data.reverse

/-- Python `s.startswith(pfx)`. -/
def pyStartsWith (s pfx : String) : Bool := isPrefixOfCL pfx.data s.data

/-- Python `s.split("/")` on the character list: every separator splits,
adjacent separators produce empty groups, the result is never empty. -/
def splitSlashCL : List Char → List (List Char)
  | [] => [[]]
  | c :: rest =>
    if c = '/' then [] :: splitSlashCL rest
    else
      match splitSlashCL rest with
      | [] => [[c]]
      | g :: gs => (c :: g) :: gs

/-- Python `path.split("/")`. -/
def splitSlash (s : String) : List String := (splitSlashCL s.data).map String.mk

/-- Python `sep.join(parts)` / building a path or text back from pieces. -/
def joinSep (sep : String) : List String → String
  | [] => ""
  | [x] => x
  | x :: y :: rest => x ++ sep ++ joinSep sep (y :: rest)

/-- Python whitespace, the set `str.strip()` removes. -/
def isPySpace (c : Char) : Bool :=
  c = ' ' || c = '\t' || c = '\n' || c = '\r' || c = '\x0b' || c = '\x0c'

/-- Python `s.strip()`: whitespace removed from both ends. -/
def pyStrip (s : String) : String :=
  ⟨((s.data.dropWhile isPySpace).reverse.dropWhile isPySpace).reverse⟩

/-- Python `s.strip(chars)`: any of `chars` removed from both ends. -/
def pyStripChars (s : String) (chars : List Char) : String :=
  ⟨((s.data.dropWhile (chars.contains ·)).reverse.dropWhile
      (chars.contains ·)).reverse⟩

/-- Python `s.lower()` as used on search terms and lines (ASCII case fold,
`Char.toLower`). -/
def strLower (s : String) : String := ⟨s.data.map Char.toLower⟩

/-- Python `s.removeprefix(pfx)`. -/
def pyRemovePre (s pfx : String) : String :=
  if pyStartsWith s pfx then ⟨s.data.drop pfx.data.length⟩ else s

/-! ## fnmatch: the glob matcher of Python's `fnmatch.fnmatch` on a
case-sensitive filesystem: `*` matches any run, `?` any one character,
`[...]`/`[!...]` a (negated) character class with ranges; an unterminated
`[` is a literal. -/

/-- One token of a glob pattern. -/
inductive GlobTok where
  | star : GlobTok
  | anyChar : GlobTok
  | lit : Char → GlobTok
  | cls : Bool → List Char → GlobTok
deriving DecidableEq

/-- Scan up to the closing `]` of a character class: the class body and the
remainder, or `none` when the class is unterminated. -/
def scanClass : List Char → Option (List Char × List Char)
  | [] => none
  | c :: rest =>
    if c = ']' then some ([], rest)
    else (scanClass rest).map (fun p => (c :: p.1, p.2))

/-- Parse a character class after `[`: negation flag, body (a leading `]`
is part of the body, as in fnmatch), remainder. -/
def takeClass (l : List Char) : Option (Bool × List Char × List Char) :=
  match l with
  | '!' :: t =>
    match t with
    | ']' :: u => (scanClass u).map (fun p => (true, ']' :: p.1, p.2))
    | _ => (scanClass t).map (fun p => (true, p.1, p.2))
  | ']' :: u => (scanClass u).map (fun p => (false, ']' :: p.1, p.2))
  | _ => (scanClass l).map (fun p => (false, p.1, p.2))

/-- Tokenize a glob pattern; the fuel bounds recursion depth and
`lexGlob` supplies more of it than the pattern length. -/
def lexGlobF : Nat → List Char → List GlobTok
  | 0, _ => []
  | _ + 1, [] => []
  | fuel + 1, c :: rest =>
    if c = '*' then .star :: lexGlobF fuel rest
    else if c = '?' then .anyChar :: lexGlobF fuel rest
    else if c = '[' then
      match takeClass rest with
      | some (neg, body, rem) => .cls neg body :: lexGlobF fuel rem
      | none => .lit '[' :: lexGlobF fuel rest
    else .lit c :: lexGlobF fuel rest

def lexGlob (l : List Char) : List GlobTok := lexGlobF (l.length + 1) l

/-- Does a character match a class body?  `a-b` is a code-point range, a
trailing `-` is a literal. -/
def classMatch : List Char → Char → Bool
  | a :: '-' :: b :: rest, c =>
    (a.toNat ≤ c.toNat && c.toNat ≤ b.toNat) || classMatch rest c
  | a :: rest, c => a == c || classMatch rest c
  | [], _ => false

/-- Match a token list against a character list; every call consumes fuel
and `fnmatch` supplies more of it than `tokens + text` combined. -/
def tokMatchF : Nat → List GlobTok → List Char → Bool
  | 0, _, _ => false
  | _ + 1, [], [] => true
  | _ + 1, [], _ :: _ => false
  | fuel + 1, .star :: ts, [] => tokMatchF fuel ts []
  | fuel + 1, .star :: ts, c :: cs =>
    tokMatchF fuel ts (c :: cs) || tokMatchF fuel (.star :: ts) cs
  | fuel + 1, .anyChar :: ts, _ :: cs => tokMatchF fuel ts cs
  | fuel + 1, .lit a :: ts, c :: cs => a == c && tokMatchF fuel ts cs
  | fuel + 1, .cls neg body :: ts, c :: cs =>
    (classMatch body c != neg) && tokMatchF fuel ts cs
  | _ + 1, .anyChar :: _, [] => false
  | _ + 1, .lit _ :: _, [] => false
  | _ + 1, .cls _ _ :: _, [] => false

/-- Python `fnmatch.fnmatch(name, pattern)` (case-sensitive platform). -/
def fnmatch (name pattern : String) : Bool :=
  tokMatchF (pattern.data.length + name.data.length + 1)
    (lexGlob pattern.data) name.data

/-! ## Ignore filtering (src/devtul/core/file_utils.py) -/

/-- `filter_gathered_paths_by_path_parts`: keep the paths in which none of
`ignore_parts` occurs as a substring. -/
def filter_gathered_paths_by_path_parts
    (paths : List String) (ignore_parts : List String) : List String :=
  paths.filter (fun path => !(ignore_parts.any (fun ign => pyContains path ign)))

/-- The last path segment, Python `Path.name` of a relative path. -/
def pathName (path : String) : String := (splitSlash path).getLastD ""

/-- `should_ignore_path`: a path is ignored when an ignore part occurs in
its string form or a glob pattern matches the full string or its final
segment. -/
def should_ignore_path
    (path : String) (ignore_parts ignore_patterns : List String) : Bool :=
  ignore_parts.any (fun part => pyContains path part)
  || ignore_patterns.any (fun pat => fnmatch path pat || fnmatch (pathName path) pat)

/-- One entry the recursive scan (`path.rglob("*")`) yields: its
forward-slash path, whether it is a regular file, and its byte size. -/
structure FSEntry where
  path : String
  isFile : Bool
  size : Nat
deriving DecidableEq

/-- Python `str(path.relative_to(path.parent.parent))`: the path's last two
segments (the whole path when it has fewer). -/
def relTwo (path : String) : String :=
  let parts := splitSlash path
  joinSep "/" (parts.drop (parts.length - 2))

/-- `get_all_files` (the default branch, `override_ignore` false): walk the
scan entries, keep regular files that no ignore rule hits, branch on the
empty-size cases exactly as the source does (note: when `only_empty` is
set the source appends an empty file twice and still appends every
non-empty file), and sort the result. -/
def get_all_files (entries : List FSEntry)
    (ignore_parts ignore_patterns : List String)
    (include_empty only_empty : Bool) : List String :=
  sortStrings (entries.foldl
    (fun all_files e =>
      if e.isFile then
        if should_ignore_path e.path ignore_parts ignore_patterns then all_files
        else if e.size = 0 then
          if only_empty then all_files ++ [relTwo e.path, relTwo e.path]
          else if include_empty then all_files ++ [relTwo e.path]
          else all_files
        else all_files ++ [relTwo e.path]
      else all_files)
    [])

/-! ## `get_git_files` ignore filtering (src/devtul/core/file_utils.py,
lines 508-515): a `for f in files` loop that calls `files.remove(f)` on the
list being iterated.  The CPython list iterator reads position `idx` and
advances it, so the loop is the following index-driven recursion; the fuel
bounds iterations and the wrapper supplies `files.length + 1`, which the
loop can never exhaust because `idx` grows by one per step while the list
never grows. -/

/-- Should `get_git_files` drop this tracked path?  An ignore part occurs
in it, or it ends with an ignored extension. -/
def gitShouldRemove (f : String) (ignore_parts ignore_exts : List String) : Bool :=
  ignore_parts.any (fun ign => pyContains f ign)
  || ignore_exts.any (fun ext => pyEndsWith f ext)

/-- The `for f in files: ... files.remove(f)` loop of `get_git_files`,
index-faithful to the CPython iterator. -/
def gitFilterLoopF (fuel : Nat) (files : List String) (idx : Nat)
    (ignore_parts ignore_exts : List String) : List String :=
  match fuel with
  | 0 => files
  | fuel + 1 =>
    match files.get? idx with
    | none => files
    | some f =>
      if gitShouldRemove f ignore_parts ignore_exts then
        gitFilterLoopF fuel (files.erase f) (idx + 1) ignore_parts ignore_exts
      else
        gitFilterLoopF fuel files (idx + 1) ignore_parts ignore_exts

/-- The ignore-filter stage of `get_git_files` as the source executes it. -/
def gitIgnoreFilter (files : List String)
    (ignore_parts ignore_exts : List String) : List String :=
  gitFilterLoopF (files.length + 1) files 0 ignore_parts ignore_exts

/-- `get_git_files` after the `git ls-files` call: ignore-filter the
tracked paths, then apply the empty-file mode.  `stat f` is the size the
filesystem reports for `repo_path / f` (`none` when it is not a regular
file). -/
def get_git_files (files : List String) (stat : String → Option Nat)
    (ignore_parts ignore_exts : List String)
    (include_empty only_empty : Bool) : List String :=
  let include_empty := if only_empty then true else include_empty
  let files := gitIgnoreFilter files ignore_parts ignore_exts
  if !include_empty || only_empty then
    if only_empty then
      files.filter (fun f => stat f = some 0)
    else
      files.filter (fun f => match stat f with | some n => 0 < n | none => False)
  else files

/-! ## Tree rendering (`build_tree_structure`, src/devtul/core/file_utils.py).
The Python builds a nested dict mapping directory names to child dicts with
a `"__files__"` bucket of leaf names at each level; the embedding keeps the
directory keys as an insertion-ordered association list and the bucket as a
plain list (the bucket exists exactly when that list is non-empty). -/

/-- The nested `tree_dict`: directory entries in insertion order, and the
`"__files__"` bucket. -/
inductive TreeDict where
  | node : List (String × TreeDict) → List String → TreeDict

/-- The directory entries of a node. -/
def TreeDict.dirs : TreeDict → List (String × TreeDict)
  | .node ds _ => ds

/-- The `"__files__"` bucket of a node. -/
def TreeDict.bucket : TreeDict → List String
  | .node _ fs => fs

/-- Python `current[part]` when `part` is a directory key. -/
def lookupDir : List (String × TreeDict) → String → Option TreeDict
  | [], _ => none
  | (k, t) :: rest, d => if k = d then some t else lookupDir rest d

/-- Store a child dict back under a key: replace the first occurrence in
place, append a new key at the end, as dict insertion order does. -/
def updateDir : List (String × TreeDict) → String → TreeDict → List (String × TreeDict)
  | [], d, t => [(d, t)]
  | (k, u) :: rest, d, t =>
    if k = d then (k, t) :: rest else (k, u) :: updateDir rest d t

/-- Insert one split path into the dict: the final segment goes into the
`"__files__"` bucket of its level, every earlier segment opens (or
creates) a directory key. -/
def TreeDict.insertPath : TreeDict → List String → TreeDict
  | t, [] => t
  | .node dirs files, [f] => .node dirs (files ++ [f])
  | .node dirs files, d :: p :: parts =>
    let sub := (lookupDir dirs d).getD (.node [] [])
    .node (updateDir dirs d (sub.insertPath (p :: parts))) files

/-- `dirs.sort(key=lambda x: x[0])`: sort directory entries by name. -/
def pairLe (a b : String × TreeDict) : Prop := strLe a.1 b.1

instance (a b : String × TreeDict) : Decidable (pairLe a b) := by
  unfold pairLe; exact inferInstance

/-- Sort the directory entries of a level by name. -/
def sortPairs (dirs : List (String × TreeDict)) : List (String × TreeDict) :=
  List.insertionSort pairLe dirs

/-- `render_tree`: serialize one level, directories first then files, each
group sorted, `├── `/`└── ` connectors, children indented with `│   ` or
four spaces.  The fuel bounds the recursion depth; callers supply more of
it than the tree is deep. -/
def render_tree : Nat → TreeDict → String → List String
  | 0, _, _ => []
  | fuel + 1, .node dirs files, pre =>
    let sdirs := sortPairs dirs
    let sfiles := sortStrings files
    let total := sdirs.length + sfiles.length
    let dirLines := sdirs.enum.flatMap (fun it =>
      let isLast := it.1 + 1 = total
      let symbol := if isLast then "└── " else "├── "
      (pre ++ symbol ++ it.2.1 ++ "/") ::
        render_tree fuel it.2.2 (pre ++ (if isLast then "    " else "│   ")))
    let fileLines := sfiles.enum.map (fun it =>
      let isLast := sdirs.length + it.1 + 1 = total
      pre ++ (if isLast then "└── " else "├── ") ++ it.2)
    dirLines ++ fileLines

/-- The dict built from the sorted path list. -/
def buildTreeDict (sortedFiles : List String) : TreeDict :=
  sortedFiles.foldl (fun t f => t.insertPath (splitSlash f)) (.node [] [])

/-- A recursion-depth bound for rendering the dict `buildTreeDict l`
builds: more than every split path's segment count combined. -/
def treeFuel (l : List String) : Nat :=
  1 + (l.map (fun f => (splitSlash f).length)).sum

/-- `build_tree_structure` after the input is sorted: build the dict, emit
the `parent + "/"` line, then either the single-root special case (one
directory key, no `"__files__"` bucket: the root name as a bare line and
its children indented three spaces) or the general rendering. -/
def build_from_sorted (sortedFiles : List String) (parent : String) : String :=
  let tree := buildTreeDict sortedFiles
  let fuel := treeFuel sortedFiles
  match tree with
  | .node [] [] => ""
  | .node [(rootName, sub)] [] =>
    joinSep "\n" ((parent ++ "/") :: (rootName ++ "/") :: render_tree fuel sub "   ")
  | _ =>
    joinSep "\n" ((parent ++ "/") :: render_tree fuel tree "")

/-- `build_tree_structure(files, parent=".")`: empty input yields the empty
string, otherwise the paths are sorted and rendered. -/
def build_tree_structure (files : List String) (parent : String) : String :=
  if files = [] then "" else build_from_sorted (sortStrings files) parent

/-- The characters of the first output line. -/
def firstLineStr (s : String) : String :=
  ⟨s.data.takeWhile (fun c => c ≠ '\n')⟩

/-! ## Content search (`search_in_file`, src/devtul/core/file_utils.py).
The file's text is modelled as the list of its lines (the file is opened
with `errors="replace"`, so decoding never raises); an I/O failure while
opening or reading is the `Except.error` case carrying the exception
message. -/

/-- One search match as the source builds it (the fields the search
writes). -/
structure FileSearchMatch where
  file_path : String
  line_number : Nat
  content : String
deriving DecidableEq

/-- The `for line_num, line in enumerate(f, 1)` loop: one match per line
containing the lowercased term, carrying the 1-based counter and the
stripped line. -/
def searchLinesFrom (fp term : String) : List String → Nat → List FileSearchMatch
  | [], _ => []
  | line :: rest, n =>
    (if pyContains (strLower line) (strLower term) then
      [⟨fp, n, pyStrip line⟩] else [])
    ++ searchLinesFrom fp term rest (n + 1)

/-- `search_in_file`: on a readable file, scan its lines from counter 1;
on any exception, return the single synthetic match with line number 0 and
the error text as content. -/
def search_in_file (fp : String) (content : Except String (List String))
    (term : String) : List FileSearchMatch :=
  match content with
  | .ok lines => searchLinesFrom fp term lines 1
  | .error e => [⟨fp, 0, "Error reading file: " ++ e⟩]

/-! ## Pattern filtering (`apply_filters`, src/devtul/core/filters.py and
the identical copy in file_utils.py).  `set(files)` is modelled as the
deduplicated list; the result is sorted, so the set's iteration order is
immaterial. -/

/-- `apply_filters(files, match_patterns, exclude_patterns)`: restrict the
set to paths matching some match pattern when any are given, remove paths
matching any exclude pattern, return the sorted list. -/
def apply_filters (files match_patterns exclude_patterns : List String) :
    List String :=
  let fileSet := files.dedup
  let fileSet :=
    if match_patterns.isEmpty then fileSet
    else fileSet.filter (fun f => match_patterns.any (fun p => fnmatch f p))
  let fileSet :=
    if exclude_patterns.isEmpty then fileSet
    else fileSet.filter (fun f => !(exclude_patterns.any (fun p => fnmatch f p)))
  sortStrings fileSet

/-! ## Sub-directory adjustment (`process_paths_for_subdir`,
src/devtul/core/filters.py). -/

/-- The normalization the source applies to `sub_dir`: strip leading and
trailing slashes and backslashes, then turn the remaining backslashes into
slashes. -/
def normalizeSubdir (sd : String) : String :=
  ⟨(pyStripChars sd ['/', '\\']).data.map (fun c => if c = '\\' then '/' else c)⟩

/-- `process_paths_for_subdir(files, sub_dir)`: `None` or an (effectively)
empty sub-directory returns the input twice; otherwise the paths under
`normalized + "/"` are returned together with the same paths with that
leading part removed. -/
def process_paths_for_subdir (files : List String) (sub_dir : Option String) :
    List String × List String :=
  match sub_dir with
  | none => (files, files)
  | some sd =>
    if sd = "" then (files, files)
    else
      let normalized_dir := normalizeSubdir sd
      if normalized_dir = "" then (files, files)
      else
        let pfx := normalized_dir ++ "/"
        let original_paths := files.filter (fun f => pyStartsWith f pfx)
        (original_paths, original_paths.map (fun f => pyRemovePre f pfx))

/-! ## Connection profiles (src/devtul/core/models.py,
src/devtul/core/interactive.py, src/devtul/core/database.py). -/

/-- `DatabaseConfig`: the validated connection parameters (`dbname` and
`port` are optional with `None` defaults). -/
structure DatabaseConfig where
  host : String
  user : String
  password : String
  dbname : Option String
  port : Option Nat
deriving DecidableEq

/-- `PostgresDatabaseConfig.__init__`: build the base configuration, then
replace a missing port with 5432 and a missing database name with
"postgres". -/
def mkPostgresDatabaseConfig (host user password : String)
    (dbname : Option String) (port : Option Nat) : DatabaseConfig :=
  let base : DatabaseConfig := ⟨host, user, password, dbname, port⟩
  let base := if base.port = none then { base with port := some 5432 } else base
  if base.dbname = none then { base with dbname := some "postgres" } else base

/-- The connection-type tags of `DB_CONN_TYPES` as `interactive.py` and
`models.py` use them (the enum's own file is not in the snapshot; its
members are those the maps key on). -/
inductive DBConnType where
  | postgres | mysql | mssql | sqlite | mongodb
deriving DecidableEq

/-- `PORT_DEFAULT_MAP` of interactive.py (`.get` misses yield `none`). -/
def PORT_DEFAULT_MAP : DBConnType → Option Nat
  | .postgres => some 5432
  | .mysql => some 3306
  | .mssql => some 1433
  | .mongodb => some 27017
  | .sqlite => none

/-- `SERVICE_DATABASE_MAP` of interactive.py. -/
def SERVICE_DATABASE_MAP : DBConnType → Option String
  | .postgres => some "postgres"
  | .mysql => some "mysql"
  | .mssql => some "master"
  | .mongodb => some "admin"
  | .sqlite => none

/-- One row of the `database_hosts` table. -/
structure HostRecord where
  host : String
  port : Option Nat
  dbname : Option String
  user : String
  password : String
  conn_type : String
deriving DecidableEq

/-- The `DatabaseConfig` that `get_hosts` rebuilds from a row. -/
def rowToConfig (r : HostRecord) : DatabaseConfig :=
  ⟨r.host, r.user, r.password, r.dbname, r.port⟩

/-- The row test of `get_hosts`: `if conn_type and record["conn_type"] !=
conn_type: continue` — a `None` or empty tag filters nothing, otherwise
only rows with the same tag pass. -/
def keepRecord (conn_type : Option String) (r : HostRecord) : Bool :=
  match conn_type with
  | none => true
  | some t => if t = "" then true else r.conn_type == t

/-- `get_hosts(conn_type)`: the table may never have been created
(`"database_hosts" not in database.table_names()`, the `none` state), in
which case the empty list is returned; otherwise the surviving rows are
rebuilt into configurations in storage order. -/
def get_hosts (table : Option (List HostRecord)) (conn_type : Option String) :
    List DatabaseConfig :=
  match table with
  | none => []
  | some rows => (rows.filter (keepRecord conn_type)).map rowToConfig

/-! ## Claims -/

/-- C1: the claim states the ignore-filtered `get_git_files` result contains
no path matching any rule, for every input list including ones with
consecutive ignorable entries.  The source removes entries from the list it
is iterating, so after a removal the iterator skips the next entry: with
two consecutive paths containing the ignore part "node_modules", the second
survives the filter even though it matches a rule. -/
theorem gitIgnoreFilter_keeps_consecutive_ignorable :
    gitIgnoreFilter ["pkg/node_modules/x.js", "pkg/node_modules/y.js"]
        ["node_modules"] [] = ["pkg/node_modules/y.js"]
    ∧ pyContains "pkg/node_modules/y.js" "node_modules" = true := by decide

/-- C2: the claim states that in `only_empty` mode every returned path is a
zero-length file appearing exactly once.  In `get_all_files` the
`only_empty` branch falls through to a second append and the non-empty
branch appends unconditionally: a directory with one empty and one
non-empty file yields the empty file twice and the non-empty file as
well. -/
theorem get_all_files_only_empty_bug :
    get_all_files [⟨"root/a/empty.txt", true, 0⟩, ⟨"root/a/full.txt", true, 5⟩]
        [] [] false true = ["a/empty.txt", "a/empty.txt", "a/full.txt"] := by decide

/-- C5: tree rendering is invariant under permuting its input: the paths
are sorted before the dict is built, so any two lists that are
permutations of one another render to the same string. -/
theorem build_tree_structure_perm (l₁ l₂ : List String) (parent : String)
    (h : l₁.Perm l₂) :
    build_tree_structure l₁ parent = build_tree_structure l₂ parent := by
  unfold build_tree_structure
  have hs : sortStrings l₁ = sortStrings l₂ := sortStrings_eq_of_perm h
  by_cases h1 : l₁ = []
  · subst h1
    have h2 : l₂ = [] := h.symm.eq_nil
    simp [h2]
  · have h2 : l₂ ≠ [] := fun he => h1 (by rw [he] at h; exact h.eq_nil)
    simp [h1, h2, hs]

/-- Witness for C5 at a concrete permuted pair. -/
theorem build_tree_structure_perm_witness :
    build_tree_structure ["d.txt", "a/c.txt", "a/b.txt"] "."
      = build_tree_structure ["a/b.txt", "a/c.txt", "d.txt"] "." :=
  build_tree_structure_perm _ _ "." (by decide)

/-- C7: when reading the file fails, `search_in_file` returns exactly one
synthetic match, line number zero, the error message as content. -/
theorem search_in_file_error_branch (fp term e : String) :
    search_in_file fp (Except.error e) term
        = [⟨fp, 0, "Error reading file: " ++ e⟩]
    ∧ (search_in_file fp (Except.error e) term).length = 1
    ∧ ∀ m ∈ search_in_file fp (Except.error e) term,
        m.line_number = 0 ∧ m.content = "Error reading file: " ++ e := by
  refine ⟨rfl, rfl, ?_⟩
  intro m hm
  simp only [search_in_file, List.mem_singleton] at hm
  subst hm
  exact ⟨rfl, rfl⟩

/-- C8: a postgres profile whose port is not supplied gets port 5432 and,
when its database name is not supplied, database name "postgres"; the
interactive layer's default maps carry the same values for the postgres
connection type. -/
theorem postgres_profile_defaults (host user password : String)
    (dbname : Option String) (port : Option Nat) :
    (mkPostgresDatabaseConfig host user password dbname none).port = some 5432
    ∧ (mkPostgresDatabaseConfig host user password none port).dbname
        = some "postgres"
    ∧ PORT_DEFAULT_MAP .postgres = some 5432
    ∧ SERVICE_DATABASE_MAP .postgres = some "postgres" := by
  refine ⟨?_, ?_, rfl, rfl⟩
  · cases dbname <;> simp [mkPostgresDatabaseConfig]
  · cases port <;> simp [mkPostgresDatabaseConfig]

/-- C10: listing profiles from a never-created table returns the empty
list, and with a (non-empty) connection-type tag every returned
configuration is rebuilt from a stored row carrying exactly that tag. -/
theorem get_hosts_spec (ct : Option String) (rows : List HostRecord)
    (tag : String) (htag : tag ≠ "") :
    get_hosts none ct = []
    ∧ ∀ c ∈ get_hosts (some rows) (some tag),
        ∃ r ∈ rows, r.conn_type = tag ∧ c = rowToConfig r := by
  refine ⟨rfl, ?_⟩
  intro c hc
  rcases List.mem_map.mp hc with ⟨r, hr, hrc⟩
  rcases List.mem_filter.mp hr with ⟨hrrows, hkeep⟩
  refine ⟨r, hrrows, ?_, hrc.symm⟩
  simp only [keepRecord, htag, if_false] at hkeep
  exact beq_iff_eq.mp hkeep

/-- Witness for C10: a table with one postgres and one mysql row, filtered
by the tag "postgres". -/
theorem get_hosts_spec_witness :
    ("postgres" : String) ≠ ""
    ∧ (get_hosts none (some "postgres") = []
       ∧ ∀ c ∈ get_hosts
            (some [⟨"h", some 5432, some "d", "u", "pw", "postgres"⟩,
                   ⟨"h2", none, none, "u2", "pw2", "mysql"⟩]) (some "postgres"),
          ∃ r ∈ [⟨"h", some 5432, some "d", "u", "pw", "postgres"⟩,
                 ⟨"h2", none, none, "u2", "pw2", "mysql"⟩],
            HostRecord.conn_type r = "postgres" ∧ c = rowToConfig r) :=
  ⟨by decide,
   get_hosts_spec (some "postgres")
     [⟨"h", some 5432, some "d", "u", "pw", "postgres"⟩,
      ⟨"h2", none, none, "u2", "pw2", "mysql"⟩] "postgres" (by decide)⟩

/-- A true leading segment rebuilds the original character list when glued
back onto what is left after dropping its length. -/
theorem isPrefixOfCL_append_drop {p s : List Char}
    (h : isPrefixOfCL p s = true) : p ++ s.drop p.length = s := by
  induction p generalizing s with
  | nil => simp
  | cons a as ih =>
    cases s with
    | nil => simp [isPrefixOfCL] at h
    | cons b bs =>
      simp only [isPrefixOfCL, Bool.and_eq_true, beq_iff_eq] at h
      obtain ⟨rfl, h2⟩ := h
      simp [ih h2]

/-- Gluing the checked leading part back onto `pyRemovePre`'s result gives
the original string. -/
theorem append_pyRemovePre {f pfx : String} (h : pyStartsWith f pfx = true) :
    pfx ++ pyRemovePre f pfx = f := by
  unfold pyRemovePre
  rw [if_pos h]
  apply String.ext
  rw [String.data_append]
  exact isPrefixOfCL_append_drop h

/-- C9: sub-directory adjustment round-trips: the two returned lists have
equal length; every adjusted path, prefixed with the normalized
sub-directory and a slash, is the original path at the same index; a
`None` or effectively empty sub-directory returns the input unchanged on
both sides. -/
theorem process_paths_for_subdir_spec (files : List String) (sd : String)
    (h : normalizeSubdir sd ≠ "") :
    (process_paths_for_subdir files (some sd)).1.length
        = (process_paths_for_subdir files (some sd)).2.length
    ∧ (∀ i a, (process_paths_for_subdir files (some sd)).2.get? i = some a →
        (process_paths_for_subdir files (some sd)).1.get? i
          = some ((normalizeSubdir sd ++ "/") ++ a))
    ∧ process_paths_for_subdir files none = (files, files)
    ∧ (∀ sd' : String, normalizeSubdir sd' = "" →
        process_paths_for_subdir files (some sd') = (files, files)) := by
  have hsd : sd ≠ "" := by
    intro he
    apply h
    rw [he]
    rfl
  have hpair : process_paths_for_subdir files (some sd)
      = (files.filter (fun f => pyStartsWith f (normalizeSubdir sd ++ "/")),
         (files.filter (fun f => pyStartsWith f (normalizeSubdir sd ++ "/"))).map
           (fun f => pyRemovePre f (normalizeSubdir sd ++ "/"))) := by
    simp [process_paths_for_subdir, hsd, h]
  refine ⟨?_, ?_, rfl, ?_⟩
  · rw [hpair]
    simp
  · intro i a ha
    rw [hpair] at ha ⊢
    simp only [List.get?_map] at ha
    cases hx : (files.filter
        (fun f => pyStartsWith f (normalizeSubdir sd ++ "/"))).get? i with
    | none => rw [hx] at ha; exact Option.noConfusion ha
    | some x =>
      rw [hx] at ha
      rw [Option.map_some'] at ha
      have hxmem := List.get?_mem hx
      have hxpre : pyStartsWith x (normalizeSubdir sd ++ "/") = true :=
        (List.mem_filter.mp hxmem).2
      have ha' : pyRemovePre x (normalizeSubdir sd ++ "/") = a := Option.some.inj ha
      subst ha'
      rw [append_pyRemovePre hxpre]
  · intro sd' hsd'
    by_cases he : sd' = ""
    · simp [process_paths_for_subdir, he]
    · simp [process_paths_for_subdir, he, hsd']

/-- Witness for C9: sub-directory "src" over a list with one path inside
it and one outside. -/
theorem process_paths_for_subdir_spec_witness :
    normalizeSubdir "src" ≠ ""
    ∧ ((process_paths_for_subdir ["src/app/main.py", "b.py"] (some "src")).1.length
        = (process_paths_for_subdir ["src/app/main.py", "b.py"] (some "src")).2.length
      ∧ (∀ i a,
          (process_paths_for_subdir ["src/app/main.py", "b.py"] (some "src")).2.get? i
            = some a →
          (process_paths_for_subdir ["src/app/main.py", "b.py"] (some "src")).1.get? i
            = some ((normalizeSubdir "src" ++ "/") ++ a))
      ∧ process_paths_for_subdir ["src/app/main.py", "b.py"] none
          = (["src/app/main.py", "b.py"], ["src/app/main.py", "b.py"])
      ∧ (∀ sd' : String, normalizeSubdir sd' = "" →
          process_paths_for_subdir ["src/app/main.py", "b.py"] (some sd')
            = (["src/app/main.py", "b.py"], ["src/app/main.py", "b.py"]))) :=
  ⟨by decide, process_paths_for_subdir_spec ["src/app/main.py", "b.py"] "src" (by decide)⟩

/-- The list `apply_filters` sorts: the deduplicated input restricted by
the two pattern stages. -/
theorem apply_filters_eq_sort (files mp ep : List String) :
    apply_filters files mp ep =
      sortStrings
        (let s1 :=
          if mp.isEmpty then files.dedup
          else files.dedup.filter (fun f => mp.any (fun p => fnmatch f p))
         if ep.isEmpty then s1
         else s1.filter (fun f => !(ep.any (fun p => fnmatch f p)))) := rfl

/-- C4: a path is in `apply_filters`'s output exactly when it is in the
input, matches some match pattern whenever any are given, and matches no
exclude pattern; the output is sorted with no duplicates; with both
pattern lists empty the filter is the input modulo sort and
deduplication. -/
theorem apply_filters_spec (files mp ep : List String) (x : String) :
    (x ∈ apply_filters files mp ep ↔
      x ∈ files ∧ (mp ≠ [] → ∃ p ∈ mp, fnmatch x p = true)
        ∧ ∀ p ∈ ep, fnmatch x p = false)
    ∧ List.Sorted strLe (apply_filters files mp ep)
    ∧ (apply_filters files mp ep).Nodup
    ∧ apply_filters files [] [] = sortStrings files.dedup := by
  have hD : files.dedup.Nodup := List.nodup_dedup files
  refine ⟨?_, ?_, ?_, rfl⟩
  · rw [apply_filters_eq_sort, mem_sortStrings]
    by_cases hmp : mp = [] <;> by_cases hep : ep = []
    · subst hmp; subst hep
      simp [List.mem_dedup]
    · subst hmp
      simp [List.isEmpty_iff, hep, List.mem_filter, List.mem_dedup,
        List.any_eq_true]
    · subst hep
      simp [List.isEmpty_iff, hmp, List.mem_filter, List.mem_dedup,
        List.any_eq_true]
    · simp [List.isEmpty_iff, hmp, hep, List.mem_filter, List.mem_dedup,
        List.any_eq_true]
      all_goals tauto
  · rw [apply_filters_eq_sort]
    exact sortStrings_sorted _
  · rw [apply_filters_eq_sort]
    apply (sortStrings_perm _).nodup_iff.mpr
    have step : ∀ (b : Bool) (q : String → Bool) (L : List String), L.Nodup →
        (if b then L else L.filter q).Nodup := by
      intro b q L hL
      cases b
      · simpa using List.Nodup.filter q hL
      · simpa using hL
    exact step _ _ _ (step _ _ _ hD)

/-- Every match the line loop emits carries a counter at least the start
value. -/
theorem searchLinesFrom_ge (fp term : String) (lines : List String) (n : Nat) :
    ∀ m ∈ searchLinesFrom fp term lines n, n ≤ m.line_number := by
  induction lines generalizing n with
  | nil => simp [searchLinesFrom]
  | cons l rest ih =>
    intro m hm
    simp only [searchLinesFrom, List.mem_append] at hm
    rcases hm with hm | hm
    · by_cases hc : pyContains (strLower l) (strLower term) = true
      · rw [if_pos hc] at hm
        simp only [List.mem_singleton] at hm
        subst hm
        exact Nat.le_refl n
      · rw [if_neg hc] at hm
        exact absurd hm (List.not_mem_nil m)
    · exact Nat.le_of_succ_le (ih (n + 1) m hm)

/-- The line loop emits exactly one match for the line at offset `k` when
that line contains the term case-insensitively, and none otherwise. -/
theorem searchLinesFrom_count (fp term : String) (lines : List String)
    (n k : Nat) :
    (searchLinesFrom fp term lines n).countP
        (fun m => m.line_number == n + k)
      = match lines.get? k with
        | some line =>
          if pyContains (strLower line) (strLower term) then 1 else 0
        | none => 0 := by
  induction lines generalizing n k with
  | nil => simp [searchLinesFrom]
  | cons l rest ih =>
    cases k with
    | zero =>
      simp only [searchLinesFrom, List.countP_append, List.get?]
      have h2 : (searchLinesFrom fp term rest (n + 1)).countP
          (fun m => m.line_number == n + 0) = 0 := by
        apply List.countP_eq_zero.mpr
        intro m hm
        have := searchLinesFrom_ge fp term rest (n + 1) m hm
        simp only [beq_iff_eq]
        omega
      rw [h2]
      by_cases hc : pyContains (strLower l) (strLower term) = true
      · simp [hc, List.countP_cons]
      · simp [hc]
    | succ j =>
      simp only [searchLinesFrom, List.countP_append, List.get?]
      have h1 : (if pyContains (strLower l) (strLower term) then
          ([⟨fp, n, pyStrip l⟩] : List FileSearchMatch) else []).countP
          (fun m => m.line_number == n + (j + 1)) = 0 := by
        by_cases hc : pyContains (strLower l) (strLower term) = true
        · simp [hc, List.countP_cons]
        · simp [hc]
      rw [h1, Nat.zero_add]
      have hn : ∀ m : FileSearchMatch,
          (m.line_number == n + (j + 1)) = (m.line_number == (n + 1) + j) := by
        intro m
        have : n + (j + 1) = (n + 1) + j := by omega
        rw [this]
      simp only [hn]
      exact ih (n + 1) j

/-- Every match the line loop emits comes from a line of the file that
contains the term, and carries that line's offset and stripped content. -/
theorem searchLinesFrom_mem (fp term : String) (lines : List String) (n : Nat) :
    ∀ m ∈ searchLinesFrom fp term lines n,
      ∃ k line, lines.get? k = some line ∧ m.line_number = n + k
        ∧ m.content = pyStrip line
        ∧ pyContains (strLower line) (strLower term) = true := by
  induction lines generalizing n with
  | nil => simp [searchLinesFrom]
  | cons l rest ih =>
    intro m hm
    simp only [searchLinesFrom, List.mem_append] at hm
    rcases hm with hm | hm
    · by_cases hc : pyContains (strLower l) (strLower term) = true
      · rw [if_pos hc] at hm
        simp only [List.mem_singleton] at hm
        subst hm
        exact ⟨0, l, rfl, rfl, rfl, hc⟩
      · rw [if_neg hc] at hm
        exact absurd hm (List.not_mem_nil m)
    · rcases ih (n + 1) m hm with ⟨k, line, hget, hnum, hcont, hc⟩
      refine ⟨k + 1, line, ?_, by omega, hcont, hc⟩
      simpa using hget

/-- C6: the content search emits, for the line at index `i` (1-based line
number `i + 1`), exactly one match when the lowercased line contains the
lowercased term and none otherwise; any match carrying that line number
repeats the line's stripped content, and only matching lines produce
matches. -/
theorem search_in_file_line_spec (fp term line : String) (lines : List String)
    (i : Nat) (h : lines.get? i = some line) :
    ((search_in_file fp (Except.ok lines) term).countP
        (fun m => m.line_number == i + 1)
      = if pyContains (strLower line) (strLower term) then 1 else 0)
    ∧ ∀ m ∈ search_in_file fp (Except.ok lines) term,
        m.line_number = i + 1 →
          m.content = pyStrip line
          ∧ pyContains (strLower line) (strLower term) = true := by
  constructor
  · have hcount := searchLinesFrom_count fp term lines 1 i
    rw [h] at hcount
    have hp : ∀ m : FileSearchMatch,
        (m.line_number == 1 + i) = (m.line_number == i + 1) := by
      intro m
      rw [Nat.add_comm 1 i]
    simp only [hp] at hcount
    exact hcount
  · intro m hm hnum
    rcases searchLinesFrom_mem fp term lines 1 m hm with
      ⟨k, line', hget, hnum', hcont, hc⟩
    have hk : k = i := by omega
    subst hk
    rw [h] at hget
    have : line' = line := (Option.some.inj hget).symm
    subst this
    exact ⟨hcont, hc⟩

/-- Witness for C6, the spec's scenario 3: the term "TODO" found
case-insensitively on line 3. -/
theorem search_in_file_line_spec_witness :
    (["import os", "x = 1", "# todo: fix"].get? 2 = some "# todo: fix")
    ∧ (((search_in_file "notes.py"
          (Except.ok ["import os", "x = 1", "# todo: fix"]) "TODO").countP
          (fun m => m.line_number == 2 + 1)
        = if pyContains (strLower "# todo: fix") (strLower "TODO") then 1 else 0)
      ∧ ∀ m ∈ search_in_file "notes.py"
            (Except.ok ["import os", "x = 1", "# todo: fix"]) "TODO",
          m.line_number = 2 + 1 →
            m.content = pyStrip "# todo: fix"
            ∧ pyContains (strLower "# todo: fix") (strLower "TODO") = true) :=
  ⟨rfl, search_in_file_line_spec "notes.py" "TODO" "# todo: fix"
    ["import os", "x = 1", "# todo: fix"] 2 rfl⟩

/-- Inserting a path that starts with directory `d` and has at least one
more segment keeps the dict in the "single root `d`, empty bucket"
shape. -/
theorem insertPath_root_step (d p : String) (ps : List String) (t : TreeDict)
    (ht : t = .node [] [] ∨ ∃ sub, t = .node [(d, sub)] []) :
    ∃ sub', t.insertPath (d :: p :: ps) = .node [(d, sub')] [] := by
  rcases ht with rfl | ⟨sub, rfl⟩
  · exact ⟨(TreeDict.node [] []).insertPath (p :: ps), rfl⟩
  · refine ⟨sub.insertPath (p :: ps), ?_⟩
    simp [TreeDict.insertPath, lookupDir, updateDir]

/-- Folding insertions of paths that all start with directory `d` (and
descend further) over a dict in single-root shape yields a dict with the
single directory key `d` and an empty bucket. -/
theorem foldl_insert_single_root (d : String) :
    ∀ l : List String,
      (∀ f ∈ l, (splitSlash f).head? = some d ∧ 2 ≤ (splitSlash f).length) →
      ∀ t : TreeDict, (t = .node [] [] ∨ ∃ sub, t = .node [(d, sub)] []) →
      l ≠ [] →
      ∃ sub, l.foldl (fun t f => t.insertPath (splitSlash f)) t
        = TreeDict.node [(d, sub)] [] := by
  intro l
  induction l with
  | nil =>
    intro _ _ _ hne
    exact absurd rfl hne
  | cons f fs ih =>
    intro hl t ht _
    obtain ⟨hhead, hlen⟩ := hl f (List.mem_cons_self f fs)
    obtain ⟨p, ps, hsplit⟩ : ∃ p ps, splitSlash f = d :: p :: ps := by
      cases hsf : splitSlash f with
      | nil => rw [hsf] at hhead; exact absurd hhead (by simp)
      | cons a rest =>
        rw [hsf] at hhead hlen
        have ha : a = d := by simpa using hhead
        cases rest with
        | nil => simp at hlen
        | cons p ps => exact ⟨p, ps, by rw [ha]⟩
    rw [List.foldl_cons, hsplit]
    obtain ⟨sub', hsub'⟩ := insertPath_root_step d p ps t ht
    rw [hsub']
    by_cases hfs : fs = []
    · subst hfs
      exact ⟨sub', rfl⟩
    · exact ih (fun g hg => hl g (List.mem_cons_of_mem f hg)) _
        (Or.inr ⟨sub', rfl⟩) hfs

/-- C3 counterexample: the claim says the single shared top-level
directory's name is the root (first) line of the output; on
`["a/b.txt"]` the first line is the constant parent header `./`, not
`a/` — the directory name only comes second. -/
theorem build_tree_root_line_counterexample :
    firstLineStr (build_tree_structure ["a/b.txt"] ".") ≠ "a/"
    ∧ build_tree_structure ["a/b.txt"] "." = "./\na/\n   └── b.txt" := by decide

/-- C3 (amended): for a non-empty path list whose paths all share one
top-level directory and all descend into it (no top-level file), the
output is the parent header line, then the shared directory's name as a
bare synthetic root line with no branch connector, then that directory's
children rendered with a three-space indent — no connector-wrapped
single-branch line is emitted around the directory. -/
theorem build_tree_single_root (files : List String) (parent d : String)
    (hne : files ≠ [])
    (hd : ∀ f ∈ files,
      (splitSlash f).head? = some d ∧ 2 ≤ (splitSlash f).length) :
    ∃ sub : TreeDict,
      buildTreeDict (sortStrings files) = TreeDict.node [(d, sub)] []
      ∧ build_tree_structure files parent
          = joinSep "\n" ((parent ++ "/") :: (d ++ "/")
              :: render_tree (treeFuel (sortStrings files)) sub "   ") := by
  have hs_ne : sortStrings files ≠ [] := by
    intro he
    have hp := (sortStrings_perm files).symm
    rw [he] at hp
    exact hne hp.eq_nil
  obtain ⟨sub, hsub⟩ := foldl_insert_single_root d (sortStrings files)
    (fun f hf => hd f (mem_sortStrings.mp hf)) (TreeDict.node [] [])
    (Or.inl rfl) hs_ne
  have hbuild : buildTreeDict (sortStrings files)
      = TreeDict.node [(d, sub)] [] := hsub
  refine ⟨sub, hbuild, ?_⟩
  unfold build_tree_structure build_from_sorted
  rw [if_neg hne]
  simp only [hbuild]

/-- Witness for C3's amended theorem at two paths under directory "a". -/
theorem build_tree_single_root_witness :
    (["a/b.txt", "a/c.txt"] : List String) ≠ []
    ∧ (∀ f ∈ (["a/b.txt", "a/c.txt"] : List String),
        (splitSlash f).head? = some "a" ∧ 2 ≤ (splitSlash f).length)
    ∧ ∃ sub : TreeDict,
        buildTreeDict (sortStrings ["a/b.txt", "a/c.txt"])
          = TreeDict.node [("a", sub)] []
        ∧ build_tree_structure ["a/b.txt", "a/c.txt"] "."
            = joinSep "\n" (("." ++ "/") :: ("a" ++ "/")
                :: render_tree (treeFuel (sortStrings ["a/b.txt", "a/c.txt"]))
                    sub "   ") :=
  ⟨by decide, by decide,
   build_tree_single_root ["a/b.txt", "a/c.txt"] "." "a" (by decide) (by decide)⟩
